import Mathlib

/-!
Formal model of the payroll computation & validation engine in
`skills/recibos-empleadas-domesticas/scripts/payroll_lib.py` and of the
worker loop in `scripts/run_monthly_payroll.py`.

Modelling conventions:
* Python `float` money values are modelled as `ℚ`.  Python's `round(x, 2)`
  (round-half-to-even at two decimals) is modelled by `round2` below.
* Python strings are modelled as `List Char` in the parsing/formatting core,
  with `String` wrappers where the code traffics in whole cell values.
* Fallible code (`raise PayrollError`) is modelled with `Except String`.
* The sha256 digest of `check_rules_updates` is modelled as the list of
  `(source, snippet)` pairs fed to the hasher: a deterministic, injective
  fingerprint, i.e. a collision-free abstraction of the cryptographic hash.
-/

/-- Round-half-to-even to an integer, the rounding mode of Python's builtin
`round` (model of `round(q, 0)` on exact values). -/
def rhe (q : ℚ) : ℤ :=
  if q - (⌊q⌋ : ℚ) < 1/2 then ⌊q⌋
  else if 1/2 < q - (⌊q⌋ : ℚ) then ⌊q⌋ + 1
  else if ⌊q⌋ % 2 = 0 then ⌊q⌋ else ⌊q⌋ + 1

/-- Model of Python `round(q, 2)`: round-half-to-even at two decimals. -/
def round2 (q : ℚ) : ℚ := (rhe (q * 100) : ℚ) / 100

theorem rhe_intCast (n : ℤ) : rhe (n : ℚ) = n := by
  unfold rhe
  simp [Int.floor_intCast]

theorem round2_cent (k : ℤ) : round2 ((k : ℚ) / 100) = (k : ℚ) / 100 := by
  unfold round2
  rw [div_mul_cancel₀ (k : ℚ) (show (100 : ℚ) ≠ 0 by norm_num), rhe_intCast]

theorem round2_eq_cents (q : ℚ) : round2 q = (rhe (q * 100) : ℚ) / 100 := rfl

theorem round2_idem (q : ℚ) : round2 (round2 q) = round2 q := by
  rw [round2_eq_cents q, round2_cent]

theorem rhe_nonpos {q : ℚ} (h : q ≤ 0) : rhe q ≤ 0 := by
  unfold rhe
  have hfq : (⌊q⌋ : ℚ) ≤ q := Int.floor_le q
  have hf : ⌊q⌋ ≤ 0 := by exact_mod_cast hfq.trans h
  split
  · exact hf
  · split
    · next h1 h2 =>
      have h3 : (⌊q⌋ : ℚ) < -1/2 := by linarith
      have h4 : (⌊q⌋ : ℚ) < 0 := h3.trans (by norm_num)
      have : ⌊q⌋ < 0 := by exact_mod_cast h4
      omega
    · next h1 h2 =>
      have hr : q - (⌊q⌋ : ℚ) = 1/2 := le_antisymm (not_lt.mp h2) (not_lt.mp h1)
      have h3 : (⌊q⌋ : ℚ) ≤ -1/2 := by linarith
      have h4 : (⌊q⌋ : ℚ) < 0 := h3.trans_lt (by norm_num)
      have hneg : ⌊q⌋ < 0 := by exact_mod_cast h4
      split
      · exact hf
      · omega

theorem rhe_nonneg {q : ℚ} (h : 0 ≤ q) : 0 ≤ rhe q := by
  unfold rhe
  have hf : 0 ≤ ⌊q⌋ := Int.floor_nonneg.mpr h
  split
  · exact hf
  · split
    · omega
    · split
      · exact hf
      · omega

theorem round2_nonpos {q : ℚ} (h : q ≤ 0) : round2 q ≤ 0 := by
  unfold round2
  have : rhe (q * 100) ≤ 0 := rhe_nonpos (by nlinarith)
  have h2 : (rhe (q * 100) : ℚ) ≤ 0 := by exact_mod_cast this
  linarith

theorem round2_nonneg {q : ℚ} (h : 0 ≤ q) : 0 ≤ round2 q := by
  unfold round2
  have : 0 ≤ rhe (q * 100) := rhe_nonneg (by nlinarith)
  have h2 : (0 : ℚ) ≤ (rhe (q * 100) : ℚ) := by exact_mod_cast this
  linarith

/-! ## String-processing core (models of Python `str` operations) -/

/-- Whitespace as stripped by Python `str.strip` (the characters that occur
in this code base's data). -/
def wsp (c : Char) : Bool := c == ' ' || c == '\t' || c == '\n' || c == '\r'

/-- Model of Python `str.strip()`. -/
def strip (s : List Char) : List Char :=
  ((s.dropWhile wsp).reverse.dropWhile wsp).reverse

/-- Model of Python `s.replace("AR$", "")`: left-to-right removal of every
occurrence of the substring `AR$`. -/
def removeARS (s : List Char) : List Char :=
  match s with
  | [] => []
  | c :: rest =>
    if c = 'A' ∧ rest.take 2 = ['R', '$'] then removeARS (rest.drop 2)
    else c :: removeARS rest
termination_by s.length
decreasing_by
  all_goals simp only [List.length_cons, List.length_drop]
  all_goals omega

/-- Whether `pat` occurs as a substring of `s` — model of Python `pat in s`. -/
def containsSub (pat : List Char) (s : List Char) : Bool :=
  match s with
  | [] => pat.isEmpty
  | _ :: rest => pat.isPrefixOf s || containsSub pat rest

def digit? (c : Char) : Bool := '0' ≤ c && c ≤ '9'

def digitVal (c : Char) : ℕ := c.toNat - '0'.toNat

/-- Value of a decimal digit string (most significant digit first). -/
def digitsToNat (l : List Char) : ℕ := l.foldl (fun a c => 10 * a + digitVal c) 0

/-- Decimal rendering of a natural number (model of Python decimal `str`). -/
def natDigits (n : ℕ) : List Char :=
  if n = 0 then ['0'] else (Nat.digits 10 n).reverse.map Nat.digitChar

/-- Model of Python `float(s)` restricted to the sign/digits/dot forms that
occur in this code base (exponent notation and `inf`/`nan` are not modelled:
the inputs are currency strings).  `none` models `ValueError`. -/
def parseFloat (s : List Char) : Option ℚ :=
  let sgn : ℚ := if s.head? = some '-' then -1 else 1
  let rest := if s.head? = some '-' ∨ s.head? = some '+' then s.tail else s
  let ip := rest.takeWhile (fun c => c != '.')
  let after := rest.dropWhile (fun c => c != '.')
  if after.isEmpty then
    if !ip.isEmpty && ip.all digit? then some (sgn * (digitsToNat ip : ℚ)) else none
  else
    let fp := after.tail
    if (ip.all digit? && fp.all digit?) && (!ip.isEmpty || !fp.isEmpty) then
      some (sgn * ((digitsToNat ip : ℚ) + (digitsToNat fp : ℚ) / 10 ^ fp.length))
    else none

/-- The separator/marker normalization of `parse_ars` (lines
`s.replace("AR$","").replace("$","").replace(" ","")` and
`s.replace(".","").replace(",",".")`), applied to the stripped input. -/
def arsNormalize (t : List Char) : List Char :=
  ((((removeARS t).filter (fun c => c != '$')).filter
      (fun c => c != ' ')).filter (fun c => c != '.')).map
      (fun c => if c == ',' then '.' else c)

/-- Model of `payroll_lib.parse_ars` on the character list of the input. -/
def parseArsChars (s : List Char) : ℚ :=
  let t := strip s
  if t.isEmpty then 0
  else
    let u := arsNormalize t
    if u = [] ∨ u = ['-'] ∨ u = ['-', '-'] then 0
    else match parseFloat u with
      | some q => round2 q
      | none => 0

/-- Model of `payroll_lib.parse_ars` (None input maps to the empty string here; the
code returns 0.0 for None and this model returns 0 for ""). -/
def parse_ars (s : String) : ℚ := parseArsChars s.data

/-- Model of `payroll_lib.parse_number` on the character list of the input. -/
def parseNumberChars (s : List Char) : ℚ :=
  let t := (strip s).filter (fun c => c != ' ')
  if t.isEmpty then 0
  else
    let u := (t.filter (fun c => c != '.')).map (fun c => if c == ',' then '.' else c)
    match parseFloat u with
    | some q => q
    | none => 0

/-- Model of `payroll_lib.parse_number`. -/
def parse_number (s : String) : ℚ := parseNumberChars s.data

/-- The chunks of `l` taken three at a time from the right, most significant
chunk first — models `reversed(chunks)` for the `while whole:` loop of
`format_ars`. -/
def chunk3 (l : List Char) : List (List Char) :=
  if l = [] then []
  else chunk3 (l.take (l.length - 3)) ++ [l.drop (l.length - 3)]
termination_by l.length
decreasing_by
  simp only [List.length_take]
  rename_i h
  have : l.length ≠ 0 := fun hc => h (List.eq_nil_of_length_eq_zero hc)
  omega

/-- Model of `".".join(chunks)`. -/
def joinDots : List (List Char) → List Char
  | [] => []
  | [c] => c
  | c :: rest => c ++ '.' :: joinDots rest

/-- Model of `payroll_lib.format_ars` producing the character list.  The
Python code renders `v = abs(round(value, 2))` with `f"{v:.2f}"`; since `v`
is an exact two-decimal value this is its cents split as `whole`/`frac`. -/
def formatArsChars (value : ℚ) : List Char :=
  let n := (rhe (value * 100)).natAbs
  let grouped := joinDots (chunk3 (natDigits (n / 100)))
  let fracCs := [Nat.digitChar (n % 100 / 10), Nat.digitChar (n % 100 % 10)]
  (if value < 0 then ['-', ' '] else []) ++ ['A', 'R', '$'] ++ grouped ++ [','] ++ fracCs

/-- Model of `payroll_lib.format_ars`. -/
def format_ars (value : ℚ) : String := String.mk (formatArsChars value)

theorem data_mk (l : List Char) : (String.mk l).data = l := rfl

set_option maxRecDepth 4000

/-- Kernel-friendly decision of equality on `ℚ` by cross-multiplication
(used to evaluate the model on concrete inputs). -/
def qeq (p r : ℚ) : Bool := p.num * r.den == r.num * p.den

theorem qeq_iff {p r : ℚ} : qeq p r = true ↔ p = r := by
  unfold qeq
  rw [beq_iff_eq]
  exact Rat.eq_iff_mul_eq_mul.symm

/-! ## Tabular data model (CSV rows as association lists) -/

/-- A spreadsheet row: column name → cell text (model of the dicts produced
by `csv_to_rows`). -/
def Row : Type := List (String × String)

/-- Normalization `str(v).strip().lower()` applied to a cell value. -/
def normCell (v : String) : String := String.mk ((strip v.data).map Char.toLower)

/-- Model of `payroll_lib.get_float`: first candidate column that is present
with non-blank text is parsed; currency-marked cells via `parse_ars`, plain
numbers via `parse_number`; no candidate yields 0. -/
def get_float (row : Row) : List String → ℚ
  | [] => 0
  | k :: rest =>
    match List.lookup k row with
    | some v =>
      if (strip v.data).isEmpty then get_float row rest
      else if containsSub "AR$".data v.data || containsSub "$".data v.data then parse_ars v
      else parse_number v
    | none => get_float row rest

/-- A `(year, month)` pair: model of the `dt.date(year, month, 1)` period
start (`dt.date` guarantees `1 ≤ month ≤ 12`). -/
structure Period where
  year : ℕ
  month : ℕ

/-- Model of the `SPANISH_MONTHS` table (months outside 1–12 cannot occur in
a `dt.date`). -/
def spanishMonth : ℕ → String
  | 1 => "ene"
  | 2 => "feb"
  | 3 => "mar"
  | 4 => "abr"
  | 5 => "may"
  | 6 => "jun"
  | 7 => "jul"
  | 8 => "ago"
  | 9 => "sept"
  | 10 => "oct"
  | 11 => "nov"
  | 12 => "dic"
  | _ => ""

/-- Model of `payroll_lib.period_label`. -/
def period_label (p : Period) : String := spanishMonth p.month ++ " " ++ Nat.repr p.year

/-- The row's `Período` cell, stripped and lowercased, equals the period
label (the comparison of `find_reference_row`). -/
def matchesRef (p : Period) (row : Row) : Bool :=
  normCell ((List.lookup "Período" row).getD "") == period_label p

/-- Model of `payroll_lib.find_reference_row`: first matching row, or the
`PayrollError` message when none matches. -/
def find_reference_row (rows : List Row) (p : Period) : Except String Row :=
  match rows.find? (matchesRef p) with
  | some r => Except.ok r
  | none => Except.error ("No reference row for period '" ++ period_label p ++ "'")

/-! ## Dates and events -/

structure PyDate where
  year : ℕ
  month : ℕ
  day : ℕ
deriving DecidableEq

def leapYear (y : ℕ) : Bool := (y % 4 == 0 && y % 100 != 0) || y % 400 == 0

def daysInMonth (y m : ℕ) : ℕ :=
  match m with
  | 1 => 31 | 2 => if leapYear y then 29 else 28 | 3 => 31 | 4 => 30
  | 5 => 31 | 6 => 30 | 7 => 31 | 8 => 31 | 9 => 30 | 10 => 31
  | 11 => 30 | 12 => 31 | _ => 0

def validDate (y m d : ℕ) : Bool :=
  1 ≤ m && m ≤ 12 && 1 ≤ d && d ≤ daysInMonth y m

/-- One `strptime` field: 1 to `maxLen` decimal digits. -/
def dateField (maxLen : ℕ) (s : List Char) : Bool :=
  !s.isEmpty && s.length ≤ maxLen && s.all digit?

/-- Model of `strptime(v, "%d/%m/%Y")`. -/
def parseDMY (s : List Char) : Option PyDate :=
  match s.splitOn '/' with
  | [ds, ms, ys] =>
    if dateField 2 ds && dateField 2 ms && dateField 4 ys &&
        validDate (digitsToNat ys) (digitsToNat ms) (digitsToNat ds) then
      some ⟨digitsToNat ys, digitsToNat ms, digitsToNat ds⟩
    else none
  | _ => none

/-- Model of `strptime(v, "%Y-%m-%d")`. -/
def parseYMD (s : List Char) : Option PyDate :=
  match s.splitOn '-' with
  | [ys, ms, ds] =>
    if dateField 4 ys && dateField 2 ms && dateField 2 ds &&
        validDate (digitsToNat ys) (digitsToNat ms) (digitsToNat ds) then
      some ⟨digitsToNat ys, digitsToNat ms, digitsToNat ds⟩
    else none
  | _ => none

/-- Model of `payroll_lib.parse_date_local`: `%d/%m/%Y` first, then `%Y-%m-%d`. -/
def parse_date_local (v : String) : Option PyDate :=
  let t := strip v.data
  if t.isEmpty then none
  else match parseDMY t with
    | some d => some d
    | none => parseYMD t

def pad2 (n : ℕ) : String := if n < 10 then "0" ++ Nat.repr n else Nat.repr n

def pad4 (n : ℕ) : String :=
  if n < 10 then "000" ++ Nat.repr n
  else if n < 100 then "00" ++ Nat.repr n
  else if n < 1000 then "0" ++ Nat.repr n
  else Nat.repr n

/-- Model of `date.isoformat()`. -/
def isoDate (d : PyDate) : String := pad4 d.year ++ "-" ++ pad2 d.month ++ "-" ++ pad2 d.day

/-- One entry of the `collect_events` result list. -/
structure EventItem where
  date : String
  type : String
  description : String
  amount : ℚ
deriving DecidableEq

/-- Model of `payroll_lib.collect_events`: keep rows with a parseable `Fecha` in the
target month/year; amount from `Monto adicional/descuento` via `parse_ars`. -/
def collect_events (rows : List Row) (p : Period) : List EventItem :=
  rows.filterMap fun row =>
    match parse_date_local ((List.lookup "Fecha" row).getD "") with
    | none => none
    | some d =>
      if d.year == p.year && d.month == p.month then
        some { date := isoDate d,
               type := (List.lookup "Tipo de evento" row).getD "",
               description := (List.lookup "Descripción" row).getD "",
               amount := round2 (parse_ars ((List.lookup "Monto adicional/descuento" row).getD "")) }
      else none

/-! ## Base computation and periodic entitlements -/

/-- The result dict of `payroll_lib._compute_base`. -/
structure BaseParts where
  basico : ℚ
  antiguedad : ℚ
  viaticos : ℚ
  dias_habiles : ℚ
  horas_dia : ℚ

/-- Model of `payroll_lib._compute_base`. -/
def compute_base (row : Row) : BaseParts :=
  let basico0 := get_float row ["Salario básico"]
  let horas_dia := get_float row ["Horas/día", "Horas diarias"]
  let basico_hora := get_float row ["Básico/hora", "Básico hora"]
  let dias_habiles := get_float row ["Días hábiles"]
  let dias_semana := get_float row ["Días por semana"]
  let semanas_mes := get_float row ["Semanas al mes"]
  let basico :=
    if basico0 ≤ 0 ∧ horas_dia > 0 ∧ basico_hora > 0 then
      if dias_habiles > 0 then dias_habiles * horas_dia * basico_hora
      else if dias_semana > 0 ∧ semanas_mes > 0 then
        dias_semana * semanas_mes * horas_dia * basico_hora
      else basico0
    else basico0
  let antig_pct := get_float row ["Antiguedad"]
  let antiguedad := if antig_pct > 0 then basico * (antig_pct / 100) else 0
  let viaticos0 := get_float row ["Viáticos totales"]
  let viaticos :=
    if viaticos0 ≤ 0 then
      let viaticos_dia := get_float row ["Viáticos/día", "Viáticos por día"]
      if viaticos_dia > 0 then
        if dias_habiles > 0 then dias_habiles * viaticos_dia
        else if dias_semana > 0 ∧ semanas_mes > 0 then dias_semana * semanas_mes * viaticos_dia
        else viaticos0
      else viaticos0
    else viaticos0
  { basico := round2 basico,
    antiguedad := round2 antiguedad,
    viaticos := round2 viaticos,
    dias_habiles := round2 (if dias_habiles > 0 then dias_habiles else dias_semana * semanas_mes),
    horas_dia := round2 horas_dia }

/-- One synthetic line of `compute_periodic_items`. -/
structure AutoItem where
  type : String
  description : String
  amount : ℚ
deriving DecidableEq

/-- Model of `payroll_lib.compute_periodic_items`. -/
def compute_periodic_items (p : Period) (subtotal : ℚ) (eventItems : List EventItem) :
    List AutoItem :=
  if (p.month == 6 || p.month == 12) &&
      !(eventItems.any fun e => containsSub "aguinaldo".data (e.type.data.map Char.toLower)) then
    [{ type := "Aguinaldo auto",
       description := "Estimado automático (50% del subtotal mensual). Revisar antes de aprobar.",
       amount := round2 (subtotal * (5/10)) }]
  else []

/-! ## Payroll aggregation -/

/-- The fixed worker roster of `SPREADSHEET_CONFIG` (its keys `"mariza"` and
`"irma"`, over which `run_monthly_payroll.main` iterates). -/
inductive PersonKey
  | mariza
  | irma
deriving DecidableEq

def personKeyStr : PersonKey → String
  | .mariza => "mariza"
  | .irma => "irma"

/-- Worker display name, `SPREADSHEET_CONFIG[key]["name"]`. -/
def personName : PersonKey → String
  | .mariza => "Mariza"
  | .irma => "Irma"

/-- The two tabs of `person_data` that `compute_payroll_for_person` reads
(`"Referencia Matrix"` and `"Eventos"`; `"Pagos"` is not consulted). -/
structure PersonData where
  referencia : List Row
  eventos : List Row

/-- Model of `payroll_lib.PayrollBreakdown`. -/
structure PayrollBreakdown where
  person_key : PersonKey
  person_name : String
  period : String
  basico : ℚ
  antiguedad : ℚ
  viaticos : ℚ
  eventos : ℚ
  subtotal : ℚ
  otros : ℚ
  total : ℚ
  dias_habiles : ℚ
  horas_dia : ℚ
  horas_trabajadas : ℚ
  event_items : List EventItem
  autopilot_items : List AutoItem
deriving DecidableEq

/-- Model of `period_start.strftime("%Y-%m")`. -/
def periodStr (p : Period) : String := pad4 p.year ++ "-" ++ pad2 p.month

/-- Model of `payroll_lib.compute_payroll_for_person`. -/
def compute_payroll_for_person (key : PersonKey) (p : Period) (data : PersonData) :
    Except String PayrollBreakdown :=
  (find_reference_row data.referencia p).map fun ref =>
    let base := compute_base ref
    let subtotal := round2 (base.basico + base.antiguedad + base.viaticos)
    let eventItems := collect_events data.eventos p
    let eventSum := round2 ((eventItems.map EventItem.amount).sum)
    let periodicItems := compute_periodic_items p subtotal eventItems
    let periodicSum := round2 ((periodicItems.map AutoItem.amount).sum)
    let otros := periodicSum
    let total := round2 (subtotal + eventSum + otros)
    { person_key := key, person_name := personName key, period := periodStr p,
      basico := base.basico, antiguedad := base.antiguedad, viaticos := base.viaticos,
      eventos := eventSum, subtotal := subtotal, otros := otros, total := total,
      dias_habiles := base.dias_habiles, horas_dia := base.horas_dia,
      horas_trabajadas := round2 (base.dias_habiles * base.horas_dia),
      event_items := eventItems, autopilot_items := periodicItems }

/-! ## Validation gate -/

/-- The per-worker check dict of `validation_payload`. -/
structure PersonChecks where
  insumos : String
  cuadre : String
  coincidencia_arca_vs_pagos : String
  evidencia : String
deriving DecidableEq

def checksValues (c : PersonChecks) : List String :=
  [c.insumos, c.cuadre, c.coincidencia_arca_vs_pagos, c.evidencia]

/-- The `checks` dict computed for one breakdown inside `validation_payload`. -/
def person_checks (mode : String) (b : PayrollBreakdown) : PersonChecks :=
  { insumos := if b.basico > 0 then "OK" else "REVISAR",
    cuadre := if round2 (b.subtotal + b.eventos + b.otros) = round2 b.total then "OK" else "REVISAR",
    coincidencia_arca_vs_pagos := if mode == "dry-run" then "OK" else "REVISAR",
    evidencia := if mode == "dry-run" then "OK" else "REVISAR" }

/-- Python dict assignment `m[k] = v` on an association list: overwrite the
existing binding in place, else append. -/
def dictSet {α : Type} (m : List (String × α)) (k : String) (v : α) : List (String × α) :=
  match m with
  | [] => [(k, v)]
  | (k', v') :: rest => if k' = k then (k, v) :: rest else (k', v') :: dictSet rest k v

/-- The `for b in results:` loop of `validation_payload`, threading the
global state, the `short` dict and the `detail` dict. -/
def gate_fold (mode : String) (bs : List PayrollBreakdown) (global : String)
    (short : List (String × String)) (detail : List (String × PersonChecks)) :
    String × List (String × String) × List (String × PersonChecks) :=
  match bs with
  | [] => (global, short, detail)
  | b :: rest =>
    let checks := person_checks mode b
    let fail := (checksValues checks).contains "REVISAR"
    gate_fold mode rest (if fail then "REVISAR" else global)
      (dictSet short b.person_name (if fail then "REVISAR" else "OK"))
      (dictSet detail (personKeyStr b.person_key) checks)

structure ValidationOut where
  global_status : String
  validation_short : List (String × String)
  validation_detail : List (String × PersonChecks)

/-- Model of `payroll_lib.validation_payload`; `rulesStatus` is
`rules_check.get("status")`. -/
def validation_payload (results : List PayrollBreakdown) (rulesStatus : String)
    (mode : String) : ValidationOut :=
  let rules_state := if rulesStatus == "no_change" then "OK" else "REVISAR"
  let r := gate_fold mode results "OK" (dictSet [] "normativa" rules_state) []
  { global_status := if rules_state != "OK" then "REVISAR" else r.1,
    validation_short := r.2.1,
    validation_detail := r.2.2 }

/-! ## Regulatory source monitor -/

def LEGAL_SOURCES : List String :=
  [ "https://www.arca.gob.ar/casasparticulares/categorias-y-remuneraciones/",
    "https://www.arca.gob.ar/casasparticulares/ayuda/empleador/vacaciones.asp",
    "https://www.arca.gob.ar/casasparticulares/ayuda/empleador/aguinaldo.asp",
    "https://www.boletinoficial.gob.ar/" ]

/-- The fingerprint fed to the sha256 hasher: the `(source, snippet)` pairs
in configured order.  `fetch src` is the snippet text obtained for `src`
this run (already including the fixed placeholder used on fetch failure).
sha256 of the concatenation is modelled by the pair list itself: a
deterministic, collision-free abstraction of the digest. -/
def rulesDigest (fetch : String → String) : List (String × String) :=
  LEGAL_SOURCES.map fun src => (src, fetch src)

/-- Result dict of `check_rules_updates` (`summary`/`snippets` are only
present on the textual-summary branch). -/
structure RulesResult where
  status : String
  summary : Option String
  sources : List String
  snippets : List (String × String)

/-- Model of `payroll_lib.check_rules_updates`.  `old` is the digest stored
in `state_dir/rules_hash.json` before the run (`none` when the file does not
exist); the second component is the digest the run writes back — the file is
overwritten on every invocation, whatever the comparison outcome. -/
def check_rules_updates (old : Option (List (String × String))) (fetch : String → String) :
    RulesResult × List (String × String) :=
  let newHash := rulesDigest fetch
  let matched := match old with
    | some h => !h.isEmpty && h == newHash
    | none => false
  if matched then
    ({ status := "no_change", summary := none, sources := LEGAL_SOURCES, snippets := [] },
      newHash)
  else
    ({ status := "textual_summary",
       summary := some "Se detectaron cambios o primera ejecución en fuentes ARCA/CNTCP. Revisar vigencias antes de aprobar.",
       sources := LEGAL_SOURCES, snippets := newHash }, newHash)

/-! ## Monthly run worker loop -/

/-- The `for person_key in ("mariza", "irma"):` loop of
`run_monthly_payroll.main`: each worker's breakdown is computed with no
per-worker exception handling, so a `PayrollError` raised for one worker
propagates and aborts the whole run (caught only at top level, exit 2). -/
def runWorkers (p : Period) (data : PersonKey → PersonData) :
    Except String (List PayrollBreakdown) := do
  let b1 ← compute_payroll_for_person .mariza p (data .mariza)
  let b2 ← compute_payroll_for_person .irma p (data .irma)
  pure [b1, b2]

instance {ε α : Type} [DecidableEq ε] [DecidableEq α] : DecidableEq (Except ε α) := fun a b =>
  match a, b with
  | .error e, .error f =>
    if h : e = f then .isTrue (by subst h; rfl)
    else .isFalse (by intro hc; injection hc; contradiction)
  | .ok x, .ok y =>
    if h : x = y then .isTrue (by subst h; rfl)
    else .isFalse (by intro hc; injection hc; contradiction)
  | .error _, .ok _ => .isFalse (by intro hc; injection hc)
  | .ok _, .error _ => .isFalse (by intro hc; injection hc)

/-! ## Concrete test data (used by the evaluation witnesses below) -/

/-- A minimal valid reference row: February 2026, fixed base 100. -/
def refRow100 : Row := [("Período", "feb 2026"), ("Salario básico", "100")]

/-- Person data with `refRow100` and no events. -/
def dataRef100 : PersonData := ⟨[refRow100], []⟩

/-- The breakdown `compute_payroll_for_person` produces from `dataRef100`
for February 2026. -/
def breakdown100 : PayrollBreakdown :=
  { person_key := .irma, person_name := "Irma", period := "2026-02",
    basico := 100, antiguedad := 0, viaticos := 0, eventos := 0,
    subtotal := 100, otros := 0, total := 100,
    dias_habiles := 0, horas_dia := 0, horas_trabajadas := 0,
    event_items := [], autopilot_items := [] }

/-- A second February 2026 row whose label differs in case and surrounding
whitespace only. -/
def rowFebUpper : Row := [("Período", " FEB 2026 ")]

/-- A breakdown violating the reconciliation identity (total off by one). -/
def badBreakdown : PayrollBreakdown :=
  { breakdown100 with total := 101 }

/-- A reference row populated only with rate-times-quantity columns. -/
def rateRow : Row := [("Horas/día", "8"), ("Básico/hora", "10"), ("Días hábiles", "20")]

/-- Worker fixtures with a missing reference row for `mariza` and valid data
for `irma` (February 2026). -/
def fixturesMissingMariza : PersonKey → PersonData
  | .mariza => ⟨[], []⟩
  | .irma => dataRef100

/-! ## Claims -/

/-- C1. For every payroll breakdown returned by `compute_payroll_for_person`,
the reconciliation invariant holds: `subtotal` equals `round2 (basico +
antiguedad + viaticos)`, `total` equals `round2 (subtotal + eventos + otros)`,
and consequently the Validation Gate's arithmetic `cuadre` check passes for
every such breakdown (in every mode). -/
theorem c1_reconciliation_invariant (key : PersonKey) (p : Period) (data : PersonData)
    (mode : String) (b : PayrollBreakdown)
    (h : compute_payroll_for_person key p data = Except.ok b) :
    b.subtotal = round2 (b.basico + b.antiguedad + b.viaticos) ∧
    b.total = round2 (b.subtotal + b.eventos + b.otros) ∧
    (person_checks mode b).cuadre = "OK" := by
  cases hf : find_reference_row data.referencia p with
  | error e =>
    unfold compute_payroll_for_person at h
    rw [hf] at h
    simp [Except.map] at h
  | ok ref =>
    unfold compute_payroll_for_person at h
    rw [hf] at h
    simp only [Except.map] at h
    injection h with h
    subst h
    refine ⟨rfl, rfl, ?_⟩
    simp only [person_checks]
    rw [if_pos]
    exact (round2_idem _).symm

/-- Witness for C1 at a concrete input. -/
theorem c1_reconciliation_invariant_witness :
    breakdown100.subtotal = round2 (breakdown100.basico + breakdown100.antiguedad + breakdown100.viaticos) ∧
    breakdown100.total = round2 (breakdown100.subtotal + breakdown100.eventos + breakdown100.otros) ∧
    (person_checks "dry-run" breakdown100).cuadre = "OK" :=
  c1_reconciliation_invariant .irma ⟨2026, 2⟩ dataRef100 "dry-run" breakdown100
    (by with_unfolding_all exact of_decide_eq_true rfl)

/-- C5. For every period and event list: in June or December with no
event whose type contains the marker `aguinaldo` (case-insensitively),
`compute_periodic_items` emits exactly one synthetic line valued at
`round2 (0.5 * subtotal)`; with the marker present, or in any other month,
it emits nothing. -/
theorem c5_periodic_entitlement (p : Period) (subtotal : ℚ) (events : List EventItem) :
    (((p.month = 6 ∨ p.month = 12) ∧
        (events.any fun e => containsSub "aguinaldo".data (e.type.data.map Char.toLower)) = false) →
      compute_periodic_items p subtotal events =
        [{ type := "Aguinaldo auto",
           description := "Estimado automático (50% del subtotal mensual). Revisar antes de aprobar.",
           amount := round2 ((1/2) * subtotal) }]) ∧
    ((events.any fun e => containsSub "aguinaldo".data (e.type.data.map Char.toLower)) = true →
      compute_periodic_items p subtotal events = []) ∧
    ((p.month ≠ 6 ∧ p.month ≠ 12) →
      compute_periodic_items p subtotal events = []) := by
  have harg : subtotal * (5/10) = (1/2) * subtotal := by rw [mul_comm]; norm_num
  unfold compute_periodic_items
  refine ⟨?_, ?_, ?_⟩
  · rintro ⟨hm, hag⟩
    have hm' : (p.month == 6 || p.month == 12) = true := by
      rcases hm with h | h <;> simp [h]
    rw [hag, hm']
    simp [harg]
  · intro hag
    rw [hag]
    simp
  · rintro ⟨h6, h12⟩
    have hm' : (p.month == 6 || p.month == 12) = false := by simp [h6, h12]
    rw [hm']
    simp

/-- Witness for C5 at concrete inputs (June, no marker / marker present). -/
theorem c5_periodic_entitlement_witness :
    compute_periodic_items ⟨2026, 6⟩ 100 [] =
      [{ type := "Aguinaldo auto",
         description := "Estimado automático (50% del subtotal mensual). Revisar antes de aprobar.",
         amount := round2 ((1/2) * 100) }] ∧
    compute_periodic_items ⟨2026, 6⟩ 100 [⟨"2026-06-01", "Aguinaldo", "", 5⟩] = [] :=
  ⟨(c5_periodic_entitlement ⟨2026, 6⟩ 100 []).1 ⟨Or.inl rfl, by decide⟩,
   (c5_periodic_entitlement ⟨2026, 6⟩ 100 [⟨"2026-06-01", "Aguinaldo", "", 5⟩]).2.1 (by decide)⟩

/-- The checkpoint written by a run is always the digest computed this run. -/
theorem check_rules_snd (old : Option (List (String × String))) (fetch : String → String) :
    (check_rules_updates old fetch).2 = rulesDigest fetch := by
  unfold check_rules_updates
  cases old <;> dsimp only <;> split <;> rfl

theorem rulesDigest_ne_nil (fetch : String → String) : rulesDigest fetch ≠ [] := by
  simp [rulesDigest, LEGAL_SOURCES]

/-- The run reports `no_change` exactly when the previously stored digest
equals the digest computed this run. -/
theorem check_rules_no_change_iff (old : Option (List (String × String)))
    (fetch : String → String) :
    (check_rules_updates old fetch).1.status = "no_change" ↔
      old = some (rulesDigest fetch) := by
  unfold check_rules_updates
  cases old with
  | none => simp
  | some h =>
    by_cases hh : h = rulesDigest fetch
    · subst hh
      have hne : (rulesDigest fetch).isEmpty = false := by
        simp [List.isEmpty_iff, rulesDigest_ne_nil fetch]
      simp [hne]
    · have : (h == rulesDigest fetch) = false := beq_eq_false_iff_ne.mpr hh
      simp [this, hh]

/-- On any non-matching previous state the result is the textual-summary
record (status, summary, sources, snippets). -/
theorem check_rules_textual (old : Option (List (String × String)))
    (fetch : String → String) (h : old ≠ some (rulesDigest fetch)) :
    (check_rules_updates old fetch).1 =
      { status := "textual_summary",
        summary := some "Se detectaron cambios o primera ejecución en fuentes ARCA/CNTCP. Revisar vigencias antes de aprobar.",
        sources := LEGAL_SOURCES, snippets := rulesDigest fetch } := by
  unfold check_rules_updates
  cases old with
  | none => simp
  | some hh =>
    have hne : hh ≠ rulesDigest fetch := fun hc => h (by rw [hc])
    have : (hh == rulesDigest fetch) = false := beq_eq_false_iff_ne.mpr hne
    simp [this]

/-- C9. Every invocation of `check_rules_updates` writes back the digest
computed this run, whatever the comparison outcome; the comparison is
against the previously stored value (`no_change` exactly when it equals this
run's digest), and with no prior checkpoint the result is never
`no_change`. -/
theorem c9_checkpoint_overwrite (old : Option (List (String × String)))
    (fetch : String → String) :
    (check_rules_updates old fetch).2 = rulesDigest fetch ∧
    ((check_rules_updates old fetch).1.status = "no_change" ↔
      old = some (rulesDigest fetch)) ∧
    (old = none → (check_rules_updates old fetch).1.status = "textual_summary") := by
  refine ⟨check_rules_snd old fetch, check_rules_no_change_iff old fetch, ?_⟩
  rintro rfl
  rw [check_rules_textual none fetch (by simp)]

/-- Witness for C9 at a concrete input (no prior checkpoint). -/
theorem c9_checkpoint_overwrite_witness :
    (check_rules_updates none (fun _ => "s")).1.status = "textual_summary" :=
  (c9_checkpoint_overwrite none (fun _ => "s")).2.2 rfl

/-- C3 counterexample: with a stored digest from a previous run and a
run whose snippet differs at every source, the returned status is the
literal `"textual_summary"`, not `"changed"` as the claim states. -/
theorem c3_counterexample :
    ((fun _ : String => "b") "https://www.boletinoficial.gob.ar/" ≠
      (fun _ : String => "a") "https://www.boletinoficial.gob.ar/") ∧
    (check_rules_updates (some (rulesDigest fun _ => "a")) (fun _ => "b")).1.status =
      "textual_summary" ∧
    (check_rules_updates (some (rulesDigest fun _ => "a")) (fun _ => "b")).1.status ≠
      "changed" := by
  refine ⟨by decide, ?_, ?_⟩ <;> decide

/-- A pointwise snippet difference at any configured source separates the
digests of two runs. -/
theorem rulesDigest_ne_of_snippet_ne (f g : String → String) (src : String)
    (hs : src ∈ LEGAL_SOURCES) (h : g src ≠ f src) :
    rulesDigest g ≠ rulesDigest f := by
  intro he
  apply h
  simp only [rulesDigest, LEGAL_SOURCES] at he
  simp only [LEGAL_SOURCES, List.mem_cons, List.not_mem_nil, or_false] at hs
  simp only [List.map_cons, List.map_nil, List.cons.injEq, Prod.mk.injEq,
    eq_self_iff_true, true_and, and_true, List.nil_eq] at he
  obtain ⟨e1, e2, e3, e4⟩ := he
  rcases hs with rfl | rfl | rfl | rfl
  · exact e1
  · exact e2
  · exact e3
  · exact e4

/-- C3 (amended). On a fixed state directory: a run that fetches exactly
the same snippet per source as the previous run returns status
`"no_change"`; if any source's snippet differs from the previous run, the
next run returns status `"textual_summary"` (the code's literal for the
"changed" outcome) with summary, sources and snippets. -/
theorem c3_monitor_two_runs (st0 : Option (List (String × String))) (f g : String → String) :
    (check_rules_updates (some (check_rules_updates st0 f).2) f).1.status = "no_change" ∧
    ((∃ src ∈ LEGAL_SOURCES, g src ≠ f src) →
      (check_rules_updates (some (check_rules_updates st0 f).2) g).1 =
        { status := "textual_summary",
          summary := some "Se detectaron cambios o primera ejecución en fuentes ARCA/CNTCP. Revisar vigencias antes de aprobar.",
          sources := LEGAL_SOURCES, snippets := rulesDigest g }) := by
  rw [check_rules_snd st0 f]
  constructor
  · exact (check_rules_no_change_iff (some (rulesDigest f)) f).mpr rfl
  · rintro ⟨src, hs, hne⟩
    exact check_rules_textual _ g
      (fun hc => rulesDigest_ne_of_snippet_ne f g src hs hne (Option.some.inj hc).symm)

/-- Witness for C3 (amended) at concrete inputs. -/
theorem c3_monitor_two_runs_witness :
    (check_rules_updates (some (check_rules_updates none (fun _ => "a")).2) (fun _ => "a")).1.status =
      "no_change" ∧
    (check_rules_updates (some (check_rules_updates none (fun _ => "a")).2) (fun _ => "b")).1 =
      { status := "textual_summary",
        summary := some "Se detectaron cambios o primera ejecución en fuentes ARCA/CNTCP. Revisar vigencias antes de aprobar.",
        sources := LEGAL_SOURCES, snippets := rulesDigest (fun _ => "b") } :=
  ⟨(c3_monitor_two_runs none (fun _ => "a") (fun _ => "a")).1,
   (c3_monitor_two_runs none (fun _ => "a") (fun _ => "b")).2
     ⟨"https://www.boletinoficial.gob.ar/", by decide, by decide⟩⟩

/-- C4 counterexample: fixtures where `irma`'s data is valid but
`mariza`'s reference row is missing — `irma`'s computation alone succeeds,
yet the monthly worker loop produces no breakdown at all (the error aborts
the whole run), contradicting per-worker failure isolation. -/
theorem c4_counterexample :
    (compute_payroll_for_person .irma ⟨2026, 2⟩ (fixturesMissingMariza .irma)).isOk = true ∧
    (runWorkers ⟨2026, 2⟩ fixturesMissingMariza).isOk = false := by
  with_unfolding_all exact of_decide_eq_true rfl

theorem runWorkers_eq (p : Period) (data : PersonKey → PersonData) :
    runWorkers p data =
      match compute_payroll_for_person .mariza p (data .mariza) with
      | .error e => .error e
      | .ok b1 =>
        match compute_payroll_for_person .irma p (data .irma) with
        | .error e => .error e
        | .ok b2 => .ok [b1, b2] := by
  unfold runWorkers
  cases compute_payroll_for_person .mariza p (data .mariza) with
  | error e => rfl
  | ok b1 => cases compute_payroll_for_person .irma p (data .irma) <;> rfl

/-- C4 (amended). The monthly worker loop has no per-worker failure
isolation: it succeeds exactly when every roster worker's computation
succeeds, so a reference-row resolution failure for one worker aborts the
whole run and no other worker's breakdown is produced. -/
theorem c4_run_aborts (p : Period) (data : PersonKey → PersonData) :
    (runWorkers p data).isOk = true ↔
      ((compute_payroll_for_person .mariza p (data .mariza)).isOk = true ∧
       (compute_payroll_for_person .irma p (data .irma)).isOk = true) := by
  rw [runWorkers_eq]
  cases compute_payroll_for_person .mariza p (data .mariza) with
  | error e => simp [Except.isOk, Except.toBool]
  | ok b1 =>
    cases compute_payroll_for_person .irma p (data .irma) with
    | error e => simp [Except.isOk, Except.toBool]
    | ok b2 => simp [Except.isOk, Except.toBool]

/-- Witness for C4 (amended) at a concrete input where both workers
resolve. -/
theorem c4_run_aborts_witness :
    (runWorkers ⟨2026, 2⟩ (fun _ => dataRef100)).isOk = true :=
  (c4_run_aborts ⟨2026, 2⟩ (fun _ => dataRef100)).mpr
    ⟨by with_unfolding_all exact of_decide_eq_true rfl,
     by with_unfolding_all exact of_decide_eq_true rfl⟩

/-- C8. For every row list and target period: when no row's `Período` cell
(stripped, lowercased) equals the period label, reference resolution fails
with the no-reference-row error rather than defaulting; when a match exists,
the first matching row in list order is returned. -/
theorem c8_reference_resolution (rows : List Row) (p : Period) :
    ((∀ r ∈ rows, matchesRef p r = false) →
      find_reference_row rows p =
        Except.error ("No reference row for period '" ++ period_label p ++ "'")) ∧
    (∀ pre r post, rows = pre ++ r :: post → matchesRef p r = true →
      (∀ r' ∈ pre, matchesRef p r' = false) →
      find_reference_row rows p = Except.ok r) := by
  constructor
  · intro h
    unfold find_reference_row
    have hn : rows.find? (matchesRef p) = none :=
      List.find?_eq_none.mpr (fun x hx => by simp [h x hx])
    rw [hn]
  · intro pre r post hrows hr hpre
    subst hrows
    unfold find_reference_row
    have hfind : ∀ pre', (∀ r' ∈ pre', matchesRef p r' = false) →
        (pre' ++ r :: post).find? (matchesRef p) = some r := by
      intro pre'
      induction pre' with
      | nil =>
        intro _
        rw [List.nil_append, List.find?_cons_of_pos _ hr]
      | cons a t ih =>
        intro hp
        rw [List.cons_append, List.find?_cons_of_neg _ (by simp [hp a (by simp)])]
        exact ih (fun r' hr' => hp r' (by simp [hr']))
    rw [hfind pre hpre]

/-- Witness for C8 at concrete inputs: no match errors; with two matching
rows (the second differing in case/whitespace only) the first is returned. -/
theorem c8_reference_resolution_witness :
    find_reference_row ([] : List Row) ⟨2026, 2⟩ =
      Except.error ("No reference row for period '" ++ period_label ⟨2026, 2⟩ ++ "'") ∧
    find_reference_row [refRow100, rowFebUpper] ⟨2026, 2⟩ = Except.ok refRow100 :=
  ⟨(c8_reference_resolution [] ⟨2026, 2⟩).1 (by simp),
   (c8_reference_resolution [refRow100, rowFebUpper] ⟨2026, 2⟩).2 [] refRow100 [rowFebUpper]
     rfl (by decide) (by simp)⟩

theorem lookup_dictSet_self {α : Type} (m : List (String × α)) (k : String) (v : α) :
    List.lookup k (dictSet m k v) = some v := by
  induction m with
  | nil => simp [dictSet, List.lookup]
  | cons hd tl ih =>
    obtain ⟨k', v'⟩ := hd
    by_cases h : k' = k
    · subst h
      simp [dictSet, List.lookup]
    · simp [dictSet, h, List.lookup, beq_eq_false_iff_ne.mpr (Ne.symm h), ih]

theorem lookup_dictSet_ne {α : Type} (m : List (String × α)) {k k' : String} (h : k' ≠ k)
    (v : α) : List.lookup k' (dictSet m k v) = List.lookup k' m := by
  induction m with
  | nil => simp [dictSet, List.lookup, beq_eq_false_iff_ne.mpr h]
  | cons hd tl ih =>
    obtain ⟨k'', v''⟩ := hd
    by_cases hk : k'' = k
    · subst hk
      simp [dictSet, List.lookup, beq_eq_false_iff_ne.mpr h]
    · by_cases h2 : k' = k''
      · subst h2
        simp [dictSet, hk, List.lookup]
      · simp [dictSet, hk, List.lookup, beq_eq_false_iff_ne.mpr h2, ih]

theorem gate_fold_fst_rev (mode : String) (bs : List PayrollBreakdown)
    (s : List (String × String)) (d : List (String × PersonChecks)) :
    (gate_fold mode bs "REVISAR" s d).1 = "REVISAR" := by
  induction bs generalizing s d with
  | nil => rfl
  | cons b tl ih =>
    unfold gate_fold
    dsimp only
    rw [ite_self]
    exact ih _ _

theorem gate_fold_fst_mem (mode : String) (bs : List PayrollBreakdown) (b : PayrollBreakdown)
    (hb : b ∈ bs) (hfail : (checksValues (person_checks mode b)).contains "REVISAR" = true)
    (g : String) (s : List (String × String)) (d : List (String × PersonChecks)) :
    (gate_fold mode bs g s d).1 = "REVISAR" := by
  induction bs generalizing g s d with
  | nil => cases hb
  | cons a tl ih =>
    unfold gate_fold
    dsimp only
    rcases List.mem_cons.mp hb with rfl | hmem
    · rw [hfail]
      simp only [if_pos]
      exact gate_fold_fst_rev mode tl _ _
    · exact ih hmem _ _ _

theorem gate_fold_short_preserve (mode : String) (bs : List PayrollBreakdown) (n : String)
    (h : ∀ b ∈ bs, b.person_name ≠ n) (g : String) (s : List (String × String))
    (d : List (String × PersonChecks)) :
    List.lookup n (gate_fold mode bs g s d).2.1 = List.lookup n s := by
  induction bs generalizing g s d with
  | nil => rfl
  | cons a tl ih =>
    unfold gate_fold
    dsimp only
    rw [ih (fun b hb => h b (List.mem_cons_of_mem a hb)) _ _ _]
    exact lookup_dictSet_ne _ (fun hc => h a (List.mem_cons_self a tl) hc.symm) _

theorem gate_fold_short_mem (mode : String) (bs : List PayrollBreakdown) (b : PayrollBreakdown)
    (hb : b ∈ bs) (hnd : (bs.map PayrollBreakdown.person_name).Nodup)
    (g : String) (s : List (String × String)) (d : List (String × PersonChecks)) :
    List.lookup b.person_name (gate_fold mode bs g s d).2.1 =
      some (if (checksValues (person_checks mode b)).contains "REVISAR" then "REVISAR" else "OK") := by
  induction bs generalizing g s d with
  | nil => cases hb
  | cons a tl ih =>
    unfold gate_fold
    dsimp only
    rcases List.mem_cons.mp hb with rfl | hmem
    · have hnotin : ∀ b' ∈ tl, b'.person_name ≠ b.person_name := by
        intro b' hb' hc
        exact (List.nodup_cons.mp hnd).1 (hc ▸ List.mem_map_of_mem _ hb')
      rw [gate_fold_short_preserve mode tl _ hnotin _ _ _]
      exact lookup_dictSet_self _ _ _
    · exact ih hmem (List.nodup_cons.mp hnd).2 _ _ _

theorem checks_fail_iff (mode : String) (b : PayrollBreakdown) :
    (checksValues (person_checks mode b)).contains "REVISAR" = true ↔
      (b.basico ≤ 0 ∨ round2 (b.subtotal + b.eventos + b.otros) ≠ round2 b.total ∨
        mode ≠ "dry-run") := by
  by_cases h1 : b.basico > 0 <;>
    by_cases h2 : round2 (b.subtotal + b.eventos + b.otros) = round2 b.total <;>
    by_cases h3 : mode = "dry-run" <;>
    simp [person_checks, checksValues, List.contains, h1, h2, h3]
  all_goals first
  | exact fun hc => absurd h1 (not_lt.mpr hc)
  | exact le_of_not_lt h1

/-- C6. For every breakdown list, regulatory status and mode: a worker whose
checks fail (base pay not positive, arithmetic reconciliation mismatch, or a
placeholder check outside simulation mode) gets summary status REVISAR (under
distinct worker names) and forces the global status to REVISAR; and a
regulatory status other than `no_change` forces the global status to REVISAR
regardless of the per-worker checks. -/
theorem c6_validation_gate (results : List PayrollBreakdown) (rulesStatus mode : String) :
    (∀ b ∈ results,
      (b.basico ≤ 0 ∨ round2 (b.subtotal + b.eventos + b.otros) ≠ round2 b.total ∨
        mode ≠ "dry-run") →
      ((results.map PayrollBreakdown.person_name).Nodup →
        List.lookup b.person_name
          (validation_payload results rulesStatus mode).validation_short = some "REVISAR") ∧
      (validation_payload results rulesStatus mode).global_status = "REVISAR") ∧
    (rulesStatus ≠ "no_change" →
      (validation_payload results rulesStatus mode).global_status = "REVISAR") := by
  constructor
  · intro b hb hdisj
    have hfail : (checksValues (person_checks mode b)).contains "REVISAR" = true :=
      (checks_fail_iff mode b).mpr hdisj
    constructor
    · intro hnd
      unfold validation_payload
      dsimp only
      rw [gate_fold_short_mem mode results b hb hnd _ _ _, hfail]
      simp
    · unfold validation_payload
      dsimp only
      by_cases hc : (rulesStatus == "no_change") = true
      · rw [if_pos hc, if_neg (by decide)]
        exact gate_fold_fst_mem mode results b hb hfail _ _ _
      · rw [if_neg hc, if_pos (by decide)]
  · intro hrule
    unfold validation_payload
    dsimp only
    have hb : (rulesStatus == "no_change") = false := beq_eq_false_iff_ne.mpr hrule
    simp [hb]

/-- Witness for C6 at a concrete input: one breakdown with a reconciliation
mismatch, regulatory status other than `no_change`. -/
theorem c6_validation_gate_witness :
    List.lookup "Irma" (validation_payload [badBreakdown] "textual_summary" "dry-run").validation_short =
      some "REVISAR" ∧
    (validation_payload [badBreakdown] "textual_summary" "dry-run").global_status = "REVISAR" :=
  have h := (c6_validation_gate [badBreakdown] "textual_summary" "dry-run").1 badBreakdown
    (by simp)
    (Or.inr (Or.inl (by with_unfolding_all exact of_decide_eq_true rfl)))
  ⟨h.1 (by simp), h.2⟩

/-- C7. For every reference row with no positive fixed base but positive
hours-per-day and hourly-rate columns, the derived base is
`businessDays × hoursPerDay × hourlyRate` (rounded to 2 decimals) when the
business-day count is positive, else
`daysPerWeek × weeksPerMonth × hoursPerDay × hourlyRate` when both weekly
columns are positive; a positive fixed base is used directly. -/
theorem c7_base_derivation (row : Row) :
    (get_float row ["Salario básico"] ≤ 0 →
     0 < get_float row ["Horas/día", "Horas diarias"] →
     0 < get_float row ["Básico/hora", "Básico hora"] →
      ((0 < get_float row ["Días hábiles"] →
        (compute_base row).basico =
          round2 (get_float row ["Días hábiles"] *
            get_float row ["Horas/día", "Horas diarias"] *
            get_float row ["Básico/hora", "Básico hora"])) ∧
       (get_float row ["Días hábiles"] ≤ 0 →
        0 < get_float row ["Días por semana"] →
        0 < get_float row ["Semanas al mes"] →
        (compute_base row).basico =
          round2 (get_float row ["Días por semana"] * get_float row ["Semanas al mes"] *
            get_float row ["Horas/día", "Horas diarias"] *
            get_float row ["Básico/hora", "Básico hora"])))) ∧
    (0 < get_float row ["Salario básico"] →
      (compute_base row).basico = round2 (get_float row ["Salario básico"])) := by
  constructor
  · intro h1 h2 h3
    constructor
    · intro h4
      unfold compute_base
      dsimp only
      rw [if_pos ⟨h1, h2, h3⟩, if_pos h4]
    · intro h4 h5 h6
      unfold compute_base
      dsimp only
      rw [if_pos ⟨h1, h2, h3⟩, if_neg (not_lt.mpr h4), if_pos ⟨h5, h6⟩]
  · intro h1
    unfold compute_base
    dsimp only
    rw [if_neg (fun hc => absurd h1 (not_lt.mpr hc.1))]

/-- Witness for C7 at a concrete rate-only row. -/
theorem c7_base_derivation_witness :
    (compute_base rateRow).basico =
      round2 (get_float rateRow ["Días hábiles"] *
        get_float rateRow ["Horas/día", "Horas diarias"] *
        get_float rateRow ["Básico/hora", "Básico hora"]) :=
  ((c7_base_derivation rateRow).1
    (by with_unfolding_all exact of_decide_eq_true rfl)
    (by with_unfolding_all exact of_decide_eq_true rfl)
    (by with_unfolding_all exact of_decide_eq_true rfl)).1
    (by with_unfolding_all exact of_decide_eq_true rfl)

theorem mem_removeARS (t : List Char) {c : Char} (h : c ∈ removeARS t) : c ∈ t := by
  match t with
  | [] => simp [removeARS] at h
  | a :: rest =>
    rw [removeARS] at h
    split at h
    · exact List.mem_cons_of_mem a (List.mem_of_mem_drop (mem_removeARS (rest.drop 2) h))
    · rcases List.mem_cons.mp h with rfl | hm
      · exact List.mem_cons_self _ _
      · exact List.mem_cons_of_mem a (mem_removeARS rest hm)
termination_by t.length
decreasing_by
  all_goals simp only [List.length_cons, List.length_drop]
  all_goals omega

theorem mem_strip {c : Char} {s : List Char} (h : c ∈ strip s) : c ∈ s := by
  unfold strip at h
  rw [List.mem_reverse] at h
  have h2 := (List.dropWhile_sublist wsp).mem h
  rw [List.mem_reverse] at h2
  exact (List.dropWhile_sublist wsp).mem h2

/-- After the `parse_ars` normalization of an input without commas, no dot
remains in the string handed to `float`. -/
theorem no_dot_arsNormalize (t : List Char) (h : ',' ∉ t) : '.' ∉ arsNormalize t := by
  intro hdot
  unfold arsNormalize at hdot
  rw [List.mem_map] at hdot
  obtain ⟨x, hx, hfx⟩ := hdot
  have hxne : x ≠ '.' := by
    have := List.of_mem_filter hx
    simpa using this
  have hxeq : x = ',' := by
    by_cases hxc : x = ','
    · exact hxc
    · rw [if_neg (by simpa using hxc)] at hfx
      exact absurd hfx hxne
  subst hxeq
  exact h (mem_removeARS t
    (List.mem_of_mem_filter (List.mem_of_mem_filter (List.mem_of_mem_filter hx))))

/-- C10. For every amount string containing a dot but no comma, `parse_ars`
removes every dot as a thousands separator before converting, so no dot
reaches the float conversion — e.g. `"1.5"` parses to 15 and `"0.50"` to 50
— and the sentinel strings `""`, `"-"`, `"--"` (and hence inputs like `"."`
or `","`) parse to 0. -/
theorem c10_dot_thousands (s : String) (hdot : '.' ∈ s.data) (hcomma : ',' ∉ s.data) :
    '.' ∉ arsNormalize (strip s.data) ∧
    parse_ars "1.5" = 15 ∧ parse_ars "0.50" = 50 ∧
    parse_ars "" = 0 ∧ parse_ars "-" = 0 ∧ parse_ars "--" = 0 ∧
    parse_ars "." = 0 ∧ parse_ars "," = 0 := by
  refine ⟨no_dot_arsNormalize _ (fun hc => hcomma (mem_strip hc)), ?_, ?_, ?_, ?_, ?_, ?_, ?_⟩
  all_goals with_unfolding_all exact of_decide_eq_true rfl

/-- Witness for C10 at a concrete input. -/
theorem c10_dot_thousands_witness :
    '.' ∉ arsNormalize (strip "1.5".data) ∧
    parse_ars "1.5" = 15 ∧ parse_ars "0.50" = 50 ∧
    parse_ars "" = 0 ∧ parse_ars "-" = 0 ∧ parse_ars "--" = 0 ∧
    parse_ars "." = 0 ∧ parse_ars "," = 0 :=
  c10_dot_thousands "1.5" (by decide) (by decide)

theorem digitVal_digitChar (d : ℕ) (h : d < 10) : digitVal (Nat.digitChar d) = d := by
  interval_cases d <;> decide

theorem digit?_digitChar (d : ℕ) (h : d < 10) : digit? (Nat.digitChar d) = true := by
  interval_cases d <;> decide

theorem digit?_ne (c : Char) (h : digit? c = true) :
    c ≠ '.' ∧ c ≠ ',' ∧ c ≠ '-' ∧ c ≠ '+' ∧ c ≠ 'A' ∧ c ≠ '$' ∧ c ≠ ' ' ∧ wsp c = false := by
  refine ⟨?_, ?_, ?_, ?_, ?_, ?_, ?_, ?_⟩
  any_goals intro hc; subst hc; exact absurd h (by decide)
  cases hwsp : wsp c with
  | false => rfl
  | true =>
    exfalso
    have hw := hwsp
    simp only [wsp, Bool.or_eq_true, beq_iff_eq] at hw
    rcases hw with ((rfl | rfl) | rfl) | rfl <;> exact absurd h (by decide)

theorem natDigits_ne_nil (m : ℕ) : natDigits m ≠ [] := by
  unfold natDigits
  split
  · simp
  · next h =>
    simp only [ne_eq, List.map_eq_nil_iff, List.reverse_eq_nil_iff]
    exact (@Nat.digits_ne_nil_iff_ne_zero 10 m).mpr h

theorem mem_natDigits {m : ℕ} {c : Char} (h : c ∈ natDigits m) :
    ∃ d, d < 10 ∧ c = Nat.digitChar d := by
  unfold natDigits at h
  split at h
  · refine ⟨0, by omega, ?_⟩
    have hc : c = '0' := by simpa using h
    rw [hc]
    rfl
  · rw [List.mem_map] at h
    obtain ⟨d, hd, rfl⟩ := h
    rw [List.mem_reverse] at hd
    exact ⟨d, Nat.digits_lt_base (by norm_num) hd, rfl⟩

theorem digit?_of_mem_natDigits {m : ℕ} {c : Char} (h : c ∈ natDigits m) :
    digit? c = true := by
  obtain ⟨d, hd, rfl⟩ := mem_natDigits h
  exact digit?_digitChar d hd

theorem digitsToNat_eq_ofDigits (L : List ℕ) (h : ∀ d ∈ L, d < 10) :
    digitsToNat (L.reverse.map Nat.digitChar) = Nat.ofDigits 10 L := by
  induction L with
  | nil => rfl
  | cons d L ih =>
    rw [List.reverse_cons, List.map_append]
    unfold digitsToNat
    rw [List.foldl_append]
    have hd : digitVal (Nat.digitChar d) = d := digitVal_digitChar d (h d (by simp))
    have ihv := ih (fun e he => h e (by simp [he]))
    unfold digitsToNat at ihv
    simp only [List.map_cons, List.map_nil, List.foldl_cons, List.foldl_nil]
    rw [ihv, hd, Nat.ofDigits_cons]
    push_cast
    ring

theorem digitsToNat_natDigits (m : ℕ) : digitsToNat (natDigits m) = m := by
  unfold natDigits
  split
  · next h => rw [h]; decide
  · rw [digitsToNat_eq_ofDigits _ (fun d hd => Nat.digits_lt_base (by norm_num) hd)]
    exact Nat.ofDigits_digits 10 m

theorem chunk3_join (l : List Char) : (chunk3 l).flatten = l := by
  rw [chunk3]
  split
  · next h => rw [h]; rfl
  · rw [List.flatten_append, chunk3_join (l.take (l.length - 3))]
    simp [List.take_append_drop]
termination_by l.length
decreasing_by
  simp only [List.length_take]
  rename_i h
  have : l.length ≠ 0 := fun hc => h (List.eq_nil_of_length_eq_zero hc)
  omega

theorem mem_joinDots {chunks : List (List Char)} {c : Char} (h : c ∈ joinDots chunks) :
    c = '.' ∨ ∃ ch ∈ chunks, c ∈ ch := by
  induction chunks with
  | nil => cases h
  | cons ch rest ih =>
    cases rest with
    | nil => exact Or.inr ⟨ch, by simp, by simpa [joinDots] using h⟩
    | cons ch2 rest2 =>
      rw [show joinDots (ch :: ch2 :: rest2) = ch ++ '.' :: joinDots (ch2 :: rest2) from rfl] at h
      rcases List.mem_append.mp h with hm | hm
      · exact Or.inr ⟨ch, by simp, hm⟩
      · rcases List.mem_cons.mp hm with rfl | hm2
        · exact Or.inl rfl
        · rcases ih hm2 with hdot | ⟨ch', hch', hc'⟩
          · exact Or.inl hdot
          · exact Or.inr ⟨ch', by simp [hch'], hc'⟩

theorem mem_of_mem_chunk3 {l : List Char} {ch : List Char} (hch : ch ∈ chunk3 l)
    {c : Char} (hc : c ∈ ch) : c ∈ l := by
  have hm : c ∈ (chunk3 l).flatten := List.mem_flatten.mpr ⟨ch, hch, hc⟩
  rwa [chunk3_join] at hm

theorem filter_joinDots (chunks : List (List Char))
    (h : ∀ ch ∈ chunks, ∀ c ∈ ch, c ≠ '.') :
    (joinDots chunks).filter (fun c => c != '.') = chunks.flatten := by
  induction chunks with
  | nil => rfl
  | cons ch rest ih =>
    cases rest with
    | nil =>
      show ch.filter (fun c => c != '.') = ch ++ []
      rw [List.append_nil]
      exact List.filter_eq_self.mpr (fun a ha => by simpa using h ch (by simp) a ha)
    | cons ch2 rest2 =>
      rw [show joinDots (ch :: ch2 :: rest2) = ch ++ '.' :: joinDots (ch2 :: rest2) from rfl,
        List.filter_append]
      have h1 : ch.filter (fun c => c != '.') = ch :=
        List.filter_eq_self.mpr (fun a ha => by simpa using h ch (by simp) a ha)
      have h2 : (('.' :: joinDots (ch2 :: rest2)).filter (fun c => c != '.')) =
          (joinDots (ch2 :: rest2)).filter (fun c => c != '.') := by
        rw [List.filter_cons]
        simp
      rw [h1, h2, ih (fun ch' hch' => h ch' (by simp [hch']))]
      rfl

theorem takeWhile_append_stop {p : Char → Bool} {l₁ : List Char}
    (h : ∀ c ∈ l₁, p c = true) {a : Char} (ha : p a = false) (l₂ : List Char) :
    (l₁ ++ a :: l₂).takeWhile p = l₁ ∧ (l₁ ++ a :: l₂).dropWhile p = a :: l₂ := by
  induction l₁ with
  | nil => simp [List.takeWhile_cons, List.dropWhile_cons, ha]
  | cons c t ih =>
    have hc := h c (by simp)
    have iht := ih (fun c' hc' => h c' (by simp [hc']))
    simp only [List.cons_append, List.takeWhile_cons, List.dropWhile_cons, hc, if_true]
    exact ⟨by rw [iht.1], by rw [iht.2]⟩

theorem removeARS_eq_self {t : List Char} (h : 'A' ∉ t) : removeARS t = t := by
  match t with
  | [] => rw [removeARS]
  | c :: rest =>
    rw [removeARS]
    rw [if_neg (by rintro ⟨rfl, -⟩; exact h (List.mem_cons_self _ _))]
    rw [removeARS_eq_self (fun hm => h (List.mem_cons_of_mem c hm))]
termination_by t.length

theorem strip_cons_concat (a b : Char) (mid : List Char) (ha : wsp a = false)
    (hb : wsp b = false) : strip (a :: (mid ++ [b])) = a :: (mid ++ [b]) := by
  unfold strip
  rw [List.dropWhile_cons]
  simp only [ha, Bool.false_eq_true, if_false]
  rw [show (a :: (mid ++ [b])).reverse = b :: (mid.reverse ++ [a]) by
    simp [List.reverse_cons, List.reverse_append]]
  rw [List.dropWhile_cons]
  simp only [hb, Bool.false_eq_true, if_false]
  simp [List.reverse_append]

theorem map_id_of (f : Char → Char) (l : List Char) (h : ∀ c ∈ l, f c = c) :
    l.map f = l := by
  induction l with
  | nil => rfl
  | cons a t ih => simp [h a (by simp), ih (fun c hc => h c (by simp [hc]))]

theorem removeARS_cons_ne {c : Char} (hc : c ≠ 'A') (rest : List Char) :
    removeARS (c :: rest) = c :: removeARS rest := by
  rw [removeARS, if_neg (by rintro ⟨rfl, -⟩; exact hc rfl)]

theorem removeARS_marker (rest : List Char) :
    removeARS ('A' :: 'R' :: '$' :: rest) = removeARS rest := by
  rw [removeARS, if_pos ⟨rfl, rfl⟩]
  rfl

/-- Normalizing the formatted-currency character list yields the optional
sign, the whole digits, a decimal point, and the two fraction digits. -/
theorem arsNormalize_grouped (neg : Bool) (w : List Char)
    (hw : ∀ c ∈ w, digit? c = true) (d1 d2 : Char) (h1 : digit? d1 = true)
    (h2 : digit? d2 = true) :
    arsNormalize ((if neg then ['-', ' '] else []) ++ ['A', 'R', '$'] ++
        joinDots (chunk3 w) ++ [','] ++ [d1, d2]) =
      (if neg then ['-'] else []) ++ w ++ '.' :: [d1, d2] := by
  have hgmem : ∀ c ∈ joinDots (chunk3 w), c = '.' ∨ digit? c = true := by
    intro c hc
    rcases mem_joinDots hc with hdot | ⟨ch, hch, hc'⟩
    · exact Or.inl hdot
    · exact Or.inr (hw c (mem_of_mem_chunk3 hch hc'))
  have hA : 'A' ∉ joinDots (chunk3 w) ++ ',' :: [d1, d2] := by
    intro hm
    rcases List.mem_append.mp hm with hm | hm
    · rcases hgmem _ hm with hdot | hd
      · exact absurd hdot.symm (by decide)
      · exact absurd hd (by decide)
    · rcases List.mem_cons.mp hm with hc | hm2
      · exact absurd hc.symm (by decide)
      · rcases List.mem_cons.mp hm2 with hc | hm3
        · exact (digit?_ne _ h1).2.2.2.2.1 hc.symm
        · rcases List.mem_cons.mp hm3 with hc | hm4
          · exact (digit?_ne _ h2).2.2.2.2.1 hc.symm
          · cases hm4
  have hrem : removeARS ((if neg then ['-', ' '] else []) ++ ['A', 'R', '$'] ++
      joinDots (chunk3 w) ++ [','] ++ [d1, d2]) =
      (if neg then ['-', ' '] else []) ++ (joinDots (chunk3 w) ++ ',' :: [d1, d2]) := by
    cases neg with
    | true =>
      simp only [eq_self_iff_true, if_true]
      rw [show (['-', ' '] ++ ['A', 'R', '$'] ++ joinDots (chunk3 w) ++ [','] ++ [d1, d2] :
          List Char) =
        '-' :: ' ' :: 'A' :: 'R' :: '$' :: (joinDots (chunk3 w) ++ ',' :: [d1, d2]) by simp]
      rw [removeARS_cons_ne (by decide), removeARS_cons_ne (by decide), removeARS_marker,
        removeARS_eq_self hA]
      simp
    | false =>
      simp only [Bool.false_eq_true, if_false]
      rw [show ([] ++ ['A', 'R', '$'] ++ joinDots (chunk3 w) ++ [','] ++ [d1, d2] :
          List Char) =
        'A' :: 'R' :: '$' :: (joinDots (chunk3 w) ++ ',' :: [d1, d2]) by simp]
      rw [removeARS_marker, removeARS_eq_self hA]
      simp
  unfold arsNormalize
  rw [hrem]
  have hgdig : ∀ c ∈ joinDots (chunk3 w), c ≠ '$' ∧ c ≠ ' ' ∧ (c = '.' ∨ c ≠ '.') := by
    intro c hc
    rcases hgmem c hc with rfl | hd
    · exact ⟨by decide, by decide, Or.inl rfl⟩
    · exact ⟨(digit?_ne c hd).2.2.2.2.2.1, (digit?_ne c hd).2.2.2.2.2.2.1, Or.inr (digit?_ne c hd).1⟩
  -- the `$` filter changes nothing
  have hfil1 : ((if neg then ['-', ' '] else []) ++
      (joinDots (chunk3 w) ++ ',' :: [d1, d2])).filter (fun c => c != '$') =
      (if neg then ['-', ' '] else []) ++ (joinDots (chunk3 w) ++ ',' :: [d1, d2]) := by
    apply List.filter_eq_self.mpr
    intro a ha
    rcases List.mem_append.mp ha with hm | hm
    · cases neg with
      | true =>
        rw [if_pos rfl] at hm
        rcases List.mem_cons.mp hm with rfl | hm2
        · decide
        · rcases List.mem_cons.mp hm2 with rfl | hm3
          · decide
          · cases hm3
      | false => rw [if_neg (by simp)] at hm; cases hm
    · rcases List.mem_append.mp hm with hm2 | hm2
      · simpa using (hgdig _ hm2).1
      · rcases List.mem_cons.mp hm2 with rfl | hm3
        · decide
        · rcases List.mem_cons.mp hm3 with rfl | hm4
          · simpa using (digit?_ne _ h1).2.2.2.2.2.1
          · rcases List.mem_cons.mp hm4 with rfl | hm5
            · simpa using (digit?_ne _ h2).2.2.2.2.2.1
            · cases hm5
  rw [hfil1]
  -- the space filter drops exactly the sign's space
  have hgfil2 : (joinDots (chunk3 w) ++ ',' :: [d1, d2]).filter (fun c => c != ' ') =
      joinDots (chunk3 w) ++ ',' :: [d1, d2] := by
    apply List.filter_eq_self.mpr
    intro a ha
    rcases List.mem_append.mp ha with hm | hm
    · simpa using (hgdig _ hm).2.1
    · rcases List.mem_cons.mp hm with rfl | hm2
      · decide
      · rcases List.mem_cons.mp hm2 with rfl | hm3
        · simpa using (digit?_ne _ h1).2.2.2.2.2.2.1
        · rcases List.mem_cons.mp hm3 with rfl | hm4
          · simpa using (digit?_ne _ h2).2.2.2.2.2.2.1
          · cases hm4
  have hfil2 : ((if neg then ['-', ' '] else []) ++
      (joinDots (chunk3 w) ++ ',' :: [d1, d2])).filter (fun c => c != ' ') =
      (if neg then ['-'] else []) ++ (joinDots (chunk3 w) ++ ',' :: [d1, d2]) := by
    rw [List.filter_append, hgfil2]
    cases neg with
    | true => rw [if_pos rfl, if_pos rfl]; rfl
    | false => rw [if_neg (by simp), if_neg (by simp)]; rfl
  rw [hfil2]
  -- the dot filter removes the grouping dots, recovering the plain digits
  have hgfil3 : (joinDots (chunk3 w)).filter (fun c => c != '.') = w := by
    rw [filter_joinDots _ (fun ch hch c hc => (digit?_ne c (hw c (mem_of_mem_chunk3 hch hc))).1),
      chunk3_join]
  have hfil3 : (((if neg then ['-'] else []) ++
      (joinDots (chunk3 w) ++ ',' :: [d1, d2]))).filter (fun c => c != '.') =
      (if neg then ['-'] else []) ++ (w ++ ',' :: [d1, d2]) := by
    rw [List.filter_append, List.filter_append]
    rw [hgfil3]
    congr 1
    · apply List.filter_eq_self.mpr
      intro a ha
      cases neg with
      | true =>
        rw [if_pos rfl] at ha
        rcases List.mem_cons.mp ha with rfl | hm
        · decide
        · cases hm
      | false => rw [if_neg (by simp)] at ha; cases ha
    · congr 1
      rw [List.filter_cons]
      have : ((',' : Char) != '.') = true := by decide
      rw [if_pos this]
      congr 1
      rw [List.filter_cons]
      rw [if_pos (by simpa using (digit?_ne _ h1).1)]
      congr 1
      rw [List.filter_cons]
      rw [if_pos (by simpa using (digit?_ne _ h2).1)]
      rfl
  rw [hfil3]
  -- the comma→dot map touches only the comma
  rw [List.map_append, List.map_append, List.append_assoc]
  congr 1
  · apply map_id_of
    intro c hc
    cases neg with
    | true =>
      rw [if_pos rfl] at hc
      rcases List.mem_cons.mp hc with rfl | hm
      · decide
      · cases hm
    | false => rw [if_neg (by simp)] at hc; cases hc
  congr 1
  · apply map_id_of
    intro c hc
    rw [if_neg (by simpa using (digit?_ne c (hw c hc)).2.1)]
  · show List.map (fun c => if c == ',' then '.' else c) (',' :: [d1, d2]) = '.' :: [d1, d2]
    rw [List.map_cons, List.map_cons, List.map_cons, List.map_nil]
    rw [show ((if (',' : Char) == ',' then ('.' : Char) else ',') = '.') from by decide,
      if_neg (by simpa using (digit?_ne _ h1).2.1),
      if_neg (by simpa using (digit?_ne _ h2).2.1)]

theorem parseFloat_canonical (neg : Bool) (w : List Char) (hwne : w ≠ [])
    (hw : ∀ c ∈ w, digit? c = true) (d1 d2 : Char) (h1 : digit? d1 = true)
    (h2 : digit? d2 = true) :
    parseFloat ((if neg then ['-'] else []) ++ w ++ '.' :: [d1, d2]) =
      some ((if neg then (-1 : ℚ) else 1) *
        ((digitsToNat w : ℚ) + (digitsToNat [d1, d2] : ℚ) / 10 ^ (2 : ℕ))) := by
  obtain ⟨c₀, w', rfl⟩ : ∃ c₀ w', w = c₀ :: w' := by
    cases w with
    | nil => exact absurd rfl hwne
    | cons a t => exact ⟨a, t, rfl⟩
  have hc₀ := hw c₀ (by simp)
  have htake := takeWhile_append_stop
    (show ∀ c ∈ c₀ :: w', (fun c => c != '.') c = true from
      fun c hc => by simpa using (digit?_ne c (hw c hc)).1)
    (show (fun c => c != '.') '.' = false by decide) [d1, d2]
  have hall : (c₀ :: w').all digit? = true := List.all_eq_true.mpr hw
  cases neg with
  | true =>
    have hshape : ((if (true : Bool) then ['-'] else []) ++ (c₀ :: w') ++ '.' :: [d1, d2] :
        List Char) = '-' :: ((c₀ :: w') ++ '.' :: [d1, d2]) := by simp
    rw [hshape]
    unfold parseFloat
    dsimp only [List.head?, List.tail]
    rw [if_pos rfl, if_pos (Or.inl rfl)]
    rw [htake.1, htake.2]
    rw [if_neg (by simp)]
    dsimp only
    have hcond : (((c₀ :: w').all digit? && [d1, d2].all digit?) &&
        (!(c₀ :: w').isEmpty || !([d1, d2].isEmpty))) = true := by
      simp [hall, h1, h2]
    rw [if_pos hcond]
    rfl
  | false =>
    have hshape : ((if (false : Bool) then ['-'] else []) ++ (c₀ :: w') ++ '.' :: [d1, d2] :
        List Char) = c₀ :: (w' ++ '.' :: [d1, d2]) := by simp
    rw [hshape]
    unfold parseFloat
    dsimp only [List.head?, List.tail]
    have hnotdash : ¬(some c₀ = some '-') := fun hc =>
      (digit?_ne c₀ hc₀).2.2.1 (Option.some.inj hc)
    have hnotplus : ¬(some c₀ = some '+') := fun hc =>
      (digit?_ne c₀ hc₀).2.2.2.1 (Option.some.inj hc)
    rw [if_neg hnotdash, if_neg (show ¬(some c₀ = some '-' ∨ some c₀ = some '+') from
      fun hc => hc.elim hnotdash hnotplus)]
    rw [show (c₀ :: (w' ++ '.' :: [d1, d2])) = (c₀ :: w') ++ '.' :: [d1, d2] by simp]
    rw [htake.1, htake.2]
    rw [if_neg (by simp)]
    dsimp only
    have hcond : (((c₀ :: w').all digit? && [d1, d2].all digit?) &&
        (!(c₀ :: w').isEmpty || !([d1, d2].isEmpty))) = true := by
      simp [hall, h1, h2]
    rw [if_pos hcond]
    rfl

theorem strip_format (neg : Bool) (g : List Char) (d1 d2 : Char) (h2 : wsp d2 = false) :
    strip ((if neg then ['-', ' '] else []) ++ ['A', 'R', '$'] ++ g ++ [','] ++ [d1, d2]) =
      (if neg then ['-', ' '] else []) ++ ['A', 'R', '$'] ++ g ++ [','] ++ [d1, d2] := by
  cases neg with
  | true =>
    have hsh : ((if (true : Bool) then ['-', ' '] else []) ++ ['A', 'R', '$'] ++ g ++ [','] ++
        [d1, d2] : List Char) =
        '-' :: ((' ' :: 'A' :: 'R' :: '$' :: (g ++ [','] ++ [d1])) ++ [d2]) := by
      simp
    rw [hsh, strip_cons_concat _ _ _ (by decide) h2]
  | false =>
    have hsh : ((if (false : Bool) then ['-', ' '] else []) ++ ['A', 'R', '$'] ++ g ++ [','] ++
        [d1, d2] : List Char) =
        'A' :: (('R' :: '$' :: (g ++ [','] ++ [d1])) ++ [d2]) := by
      simp
    rw [hsh, strip_cons_concat _ _ _ (by decide) h2]

theorem sentinel_reject (sgn : List Char) (w : List Char) (hwne : w ≠ []) (d1 d2 : Char) :
    ¬(sgn ++ w ++ '.' :: [d1, d2] = [] ∨ sgn ++ w ++ '.' :: [d1, d2] = ['-'] ∨
      sgn ++ w ++ '.' :: [d1, d2] = ['-', '-']) := by
  have hlen : 3 ≤ (sgn ++ w ++ '.' :: [d1, d2]).length := by
    simp only [List.length_append, List.length_cons]
    omega
  rintro (hc | hc | hc)
  all_goals
    have hl := congrArg List.length hc
    simp at hl
    try omega

theorem digitsToNat_pair (a b : ℕ) (ha : a < 10) (hb : b < 10) :
    digitsToNat [Nat.digitChar a, Nat.digitChar b] = 10 * a + b := by
  unfold digitsToNat
  rw [List.foldl_cons, List.foldl_cons, List.foldl_nil,
    digitVal_digitChar a ha, digitVal_digitChar b hb]
  ring

theorem parseArsChars_format_core (neg : Bool) (w : List Char) (hwne : w ≠ [])
    (hw : ∀ c ∈ w, digit? c = true) (d1 d2 : Char) (h1 : digit? d1 = true)
    (h2 : digit? d2 = true) :
    parseArsChars ((if neg then ['-', ' '] else []) ++ ['A', 'R', '$'] ++
        joinDots (chunk3 w) ++ [','] ++ [d1, d2]) =
      round2 ((if neg then (-1 : ℚ) else 1) *
        ((digitsToNat w : ℚ) + (digitsToNat [d1, d2] : ℚ) / 10 ^ (2 : ℕ))) := by
  have hstrip := strip_format neg (joinDots (chunk3 w)) d1 d2 (digit?_ne d2 h2).2.2.2.2.2.2.2
  unfold parseArsChars
  dsimp only
  rw [hstrip]
  have hne : ((if neg then ['-', ' '] else []) ++ ['A', 'R', '$'] ++
      joinDots (chunk3 w) ++ [','] ++ [d1, d2]).isEmpty = false := by
    cases neg <;> simp
  rw [if_neg (by rw [hne]; exact Bool.false_ne_true)]
  rw [arsNormalize_grouped neg w hw d1 d2 h1 h2]
  rw [if_neg (sentinel_reject _ w hwne d1 d2)]
  rw [parseFloat_canonical neg w hwne hw d1 d2 h1 h2]

/-- C2. For every `x : ℚ`, parsing the formatted currency string
round-trips to the 2-decimal rounding of `x`:
`parse_ars (format_ars x) = round2 x`, including negative values rendered
with the literal "- " prefix. -/
theorem c2_format_parse_round_trip (x : ℚ) : parse_ars (format_ars x) = round2 x := by
  show parseArsChars (formatArsChars x) = round2 x
  have hd1 : (rhe (x * 100)).natAbs % 100 / 10 < 10 := by omega
  have hd2 : (rhe (x * 100)).natAbs % 100 % 10 < 10 := by omega
  have hsplit : (((rhe (x * 100)).natAbs / 100 : ℕ) : ℚ) +
      ((10 * ((rhe (x * 100)).natAbs % 100 / 10) + (rhe (x * 100)).natAbs % 100 % 10 : ℕ) : ℚ) /
        10 ^ (2 : ℕ) = ((rhe (x * 100)).natAbs : ℚ) / 100 := by
    have hmod : 10 * ((rhe (x * 100)).natAbs % 100 / 10) + (rhe (x * 100)).natAbs % 100 % 10 =
        (rhe (x * 100)).natAbs % 100 := by omega
    rw [hmod]
    have h100 : (100 : ℕ) * ((rhe (x * 100)).natAbs / 100) + (rhe (x * 100)).natAbs % 100 =
        (rhe (x * 100)).natAbs := Nat.div_add_mod _ 100
    have hc := congrArg (fun m : ℕ => (m : ℚ)) h100
    push_cast at hc
    field_simp
    linarith
  unfold formatArsChars
  dsimp only
  by_cases hx : x < 0
  · rw [if_pos hx]
    have hcore := parseArsChars_format_core true
      (natDigits ((rhe (x * 100)).natAbs / 100)) (natDigits_ne_nil _)
      (fun c hc => digit?_of_mem_natDigits hc)
      (Nat.digitChar ((rhe (x * 100)).natAbs % 100 / 10))
      (Nat.digitChar ((rhe (x * 100)).natAbs % 100 % 10))
      (digit?_digitChar _ hd1) (digit?_digitChar _ hd2)
    simp only [if_true] at hcore
    rw [hcore, digitsToNat_natDigits, digitsToNat_pair _ _ hd1 hd2]
    rw [hsplit]
    have hn : ((rhe (x * 100)).natAbs : ℤ) = -(rhe (x * 100)) :=
      Int.ofNat_natAbs_of_nonpos (rhe_nonpos (by nlinarith [le_of_lt hx]))
    have hnq : (((rhe (x * 100)).natAbs : ℕ) : ℚ) = -((rhe (x * 100) : ℤ) : ℚ) := by
      have hq := congrArg (fun m : ℤ => (m : ℚ)) hn
      simpa only [Int.cast_natCast, Int.cast_neg] using hq
    rw [hnq]
    rw [show (-1 : ℚ) * (-((rhe (x * 100) : ℤ) : ℚ) / 100) = ((rhe (x * 100) : ℤ) : ℚ) / 100 by
      ring]
    rw [round2_cent]
    rfl
  · rw [if_neg hx]
    have hcore := parseArsChars_format_core false
      (natDigits ((rhe (x * 100)).natAbs / 100)) (natDigits_ne_nil _)
      (fun c hc => digit?_of_mem_natDigits hc)
      (Nat.digitChar ((rhe (x * 100)).natAbs % 100 / 10))
      (Nat.digitChar ((rhe (x * 100)).natAbs % 100 % 10))
      (digit?_digitChar _ hd1) (digit?_digitChar _ hd2)
    simp only [Bool.false_eq_true, if_false] at hcore
    rw [hcore, digitsToNat_natDigits, digitsToNat_pair _ _ hd1 hd2]
    rw [hsplit]
    have hn : ((rhe (x * 100)).natAbs : ℤ) = rhe (x * 100) :=
      Int.natAbs_of_nonneg (rhe_nonneg (by nlinarith [not_lt.mp hx]))
    have hnq : (((rhe (x * 100)).natAbs : ℕ) : ℚ) = ((rhe (x * 100) : ℤ) : ℚ) := by
      have hq := congrArg (fun m : ℤ => (m : ℚ)) hn
      simpa only [Int.cast_natCast] using hq
    rw [hnq]
    rw [show (1 : ℚ) * (((rhe (x * 100) : ℤ) : ℚ) / 100) = ((rhe (x * 100) : ℤ) : ℚ) / 100 by
      ring]
    rw [round2_cent]
    rfl

/-- Reference vectors from the repository's `test_parse_ars` unit test, plus
the matching `format_ars` rendering. -/
theorem parse_ars_reference_vectors :
    parse_ars " AR$1.234,50" = 2469 / 2 ∧ parse_ars "- AR$24.000,00" = -24000 ∧
    parse_ars "" = 0 ∧ format_ars (2469 / 2) = "AR$1.234,50" :=
  ⟨qeq_iff.mp (by with_unfolding_all exact of_decide_eq_true rfl),
   qeq_iff.mp (by with_unfolding_all exact of_decide_eq_true rfl),
   qeq_iff.mp (by with_unfolding_all exact of_decide_eq_true rfl),
   by with_unfolding_all exact of_decide_eq_true rfl⟩
